import Mathlib

/-!
Verification development for the spine-analyzer reconstruction pipeline.

The Python source is shallowly embedded: 3-D volumes are nested lists of
rationals indexed (z, y, x); boolean masks are nested lists of `Bool`;
machine floats are modelled by exact rationals (`ℚ`), and calls into
external libraries (scipy peak finding, scikit-image marching cubes,
pyvista mesh post-processing, scikit-learn classification) are modelled
as explicit function parameters, since they are not code of this
repository.
-/

namespace Spine

/-- A 3-D scalar volume, indexed `(z, y, x)` — `app/ai/reconstruction`. -/
abbrev Volume := List (List (List ℚ))

/-- A boolean bone mask of the same nested shape as a `Volume`. -/
abbrev Mask := List (List (List Bool))

/-- All scalar values of a volume, flattened (the order `numpy` ravels). -/
def Volume.vals (v : Volume) : List ℚ := (v.map List.flatten).flatten

/-- All boolean entries of a mask, flattened. -/
def Mask.vals (m : Mask) : List Bool := (m.map List.flatten).flatten

/-- Model of `numpy`'s `array.max()` on a non-empty array (0 is a junk default for
the empty case, which `numpy` rejects at runtime). -/
def listMax : List ℚ → ℚ
  | [] => 0
  | x :: xs => xs.foldl max x

/-- Model of `numpy`'s `array.min()` on a non-empty array. -/
def listMin : List ℚ → ℚ
  | [] => 0
  | x :: xs => xs.foldl min x

/-- Map a scalar function over every voxel of a volume. -/
def mapVol (f : ℚ → ℚ) (v : Volume) : Volume :=
  v.map (fun sl => sl.map (fun row => row.map f))

/-- Threshold every voxel of a volume against a closed window `[lo, hi]`. -/
def thresholdMask (lo hi : ℚ) (v : Volume) : Mask :=
  v.map (fun sl => sl.map (fun row => row.map (fun q => decide (lo ≤ q ∧ q ≤ hi))))

namespace BoneSegmenter

/-- Model of `BoneSegmenter.segment` (`segmentation.py`): if the volume's maximum
exceeds 10 the values are taken as raw HU and thresholded against
`[hu_low, hu_high]`; otherwise the volume is assumed normalised to `[0,1]`
and the window is rescaled by the fixed CT calibration `(q+1024)/4024`. -/
def segment (hu_low hu_high : ℚ) (v : Volume) : Mask :=
  let vmax := listMax v.vals
  if 10 < vmax then
    thresholdMask hu_low hu_high v
  else
    thresholdMask ((hu_low + 1024) / 4024) (min ((hu_high + 1024) / 4024) 1) v

end BoneSegmenter

namespace VolumeBuilder

/-- Model of `VolumeBuilder.compute_bone_mask` (`volume_builder.py`): the same
dual-mode HU thresholding as `BoneSegmenter.segment`, duplicated in the
source. -/
def compute_bone_mask (hu_low hu_high : ℚ) (v : Volume) : Mask :=
  let vmax := listMax v.vals
  if 10 < vmax then
    thresholdMask hu_low hu_high v
  else
    thresholdMask ((hu_low + 1024) / 4024) (min ((hu_high + 1024) / 4024) 1) v

/-- Model of `VolumeBuilder.normalize` (`volume_builder.py`): min–max rescaling to
`[0,1]`; an all-zero volume of the same shape when the value range is
below `1e-6`. -/
def normalize (v : Volume) : Volume :=
  let vmin := listMin v.vals
  let vmax := listMax v.vals
  if vmax - vmin < 1 / 1000000 then
    mapVol (fun _ => 0) v
  else
    mapVol (fun q => (q - vmin) / (vmax - vmin)) v

end VolumeBuilder

/-! ### Component cleanup (`BoneSegmenter.segment_with_cleanup`)

`scipy.ndimage.binary_fill_holes` is applied slice by slice (2-D,
4-connectivity of the background), then `scipy.ndimage.label` groups the
mask into 6-connected 3-D components and every component of size
`≥ min_size` is retained — but only when more than one component exists. -/

/-- A voxel coordinate `(z, y, x)`. -/
abbrev Coord := ℕ × ℕ × ℕ

/-- One axial slice of a mask. -/
abbrev Slice := List (List Bool)

/-- 4-adjacency of 2-D pixel coordinates (the default structuring element
of `binary_fill_holes`). -/
def adj4 (p q : ℕ × ℕ) : Bool :=
  decide ((p.1 = q.1 ∧ (p.2 + 1 = q.2 ∨ q.2 + 1 = p.2))
        ∨ (p.2 = q.2 ∧ (p.1 + 1 = q.1 ∨ q.1 + 1 = p.1)))

/-- 6-adjacency of 3-D voxel coordinates (the default structuring element
of `scipy.ndimage.label`). -/
def adj6 (p q : Coord) : Bool :=
  decide ((p.1 = q.1 ∧ adj4 p.2 q.2 = true)
        ∨ (p.2 = q.2 ∧ (p.1 + 1 = q.1 ∨ q.1 + 1 = p.1)))

/-- One breadth step of region growing inside `univ` restricted to `good`
points, along `adj`. -/
def growOnce {α : Type} [BEq α] (univ : List α) (good : α → Bool)
    (adj : α → α → Bool) (cur : List α) : List α :=
  cur ++ univ.filter (fun p => good p && !(cur.contains p) && cur.any (fun q => adj p q))

/-- Region growing to a fixed point: `univ.length` breadth steps suffice. -/
def closure {α : Type} [BEq α] (univ : List α) (good : α → Bool)
    (adj : α → α → Bool) (start : List α) : List α :=
  (growOnce univ good adj)^[univ.length] start

/-- The pixel of a slice at `(y, x)` (`false` out of range). -/
def slicePix (s : Slice) (p : ℕ × ℕ) : Bool :=
  (s.getD p.1 []).getD p.2 false

/-- Height of a slice. -/
def sliceH (s : Slice) : ℕ := s.length

/-- Width of a slice. -/
def sliceW (s : Slice) : ℕ := (s.map List.length).foldr max 0

/-- All pixel coordinates of a slice. -/
def sliceCoords (s : Slice) : List (ℕ × ℕ) :=
  (List.range (sliceH s)).flatMap (fun y => (List.range (sliceW s)).map (fun x => (y, x)))

/-- Background pixels on the slice border: the seeds `binary_fill_holes`
dilates from (its `border_value = 1` exterior). -/
def borderBackground (s : Slice) : List (ℕ × ℕ) :=
  (sliceCoords s).filter (fun p =>
    !slicePix s p &&
      (p.1 == 0 || p.1 + 1 == sliceH s || p.2 == 0 || p.2 + 1 == sliceW s))

/-- Background pixels 4-connected to the slice border; the complement of
these inside the background is exactly the set of holes. -/
def outsidePix (s : Slice) : List (ℕ × ℕ) :=
  closure (sliceCoords s) (fun p => !slicePix s p) adj4 (borderBackground s)

/-- Model of `scipy.ndimage.binary_fill_holes` on one 2-D slice. -/
def fillHoles2D (s : Slice) : Slice :=
  (List.range (sliceH s)).map (fun y =>
    (List.range (sliceW s)).map (fun x =>
      slicePix s (y, x) || !((outsidePix s).contains (y, x))))

/-- Per-slice hole filling of a 3-D mask (the `for z in range(...)` loop). -/
def fillHolesMask (m : Mask) : Mask := m.map fillHoles2D

/-- The boolean of a mask at a coordinate (`false` out of range). -/
def maskPix (m : Mask) (c : Coord) : Bool :=
  ((m.getD c.1 []).getD c.2.1 []).getD c.2.2 false

/-- All true voxel coordinates of a mask. -/
def trueCoords (m : Mask) : List Coord :=
  ((List.range m.length).flatMap (fun z =>
    (List.range ((m.getD z []).length)).flatMap (fun y =>
      (List.range (((m.getD z []).getD y []).length)).map (fun x => (z, y, x))))).filter
    (fun c => maskPix m c)

/-- The 6-connected component of the mask containing `p`. -/
def component (m : Mask) (p : Coord) : List Coord :=
  closure (trueCoords m) (fun c => maskPix m c) adj6 [p]

/-- The voxel count of the component containing `p`. -/
def compSize (m : Mask) (p : Coord) : ℕ := (component m p).length

/-- The number of 6-connected components of a mask (`scipy.ndimage.label`'s
`num`). -/
def numComponents (m : Mask) : ℕ :=
  ((trueCoords m).foldl
    (fun acc p => if acc.1.contains p then acc else (acc.1 ++ component m p, acc.2 + 1))
    (([] : List Coord), 0)).2

/-- One row of `keepLarge`: keep each true entry for which `g x` holds. -/
def rowKeep (g : ℕ → Bool) (row : List Bool) : List Bool :=
  row.enum.map (fun xb => xb.2 && g xb.1)

/-- One slice of `keepLarge`. -/
def sliceKeep (g : ℕ → ℕ → Bool) (s : Slice) : Slice :=
  s.enum.map (fun yrow => rowKeep (g yrow.1) yrow.2)

/-- Retain exactly the voxels whose component has size `≥ minSize` (the
`keep |= comp` loop of `segment_with_cleanup`). -/
def keepLarge (m : Mask) (minSize : ℕ) : Mask :=
  m.enum.map (fun zsl =>
    sliceKeep (fun y x => decide (minSize ≤ compSize m (zsl.1, y, x))) zsl.2)

/-- Model of `BoneSegmenter.segment_with_cleanup` (`segmentation.py`): threshold,
fill holes slice by slice, then — only when more than one component was
labeled — keep every component of size `≥ min_size`. The scipy backend is
taken as present (its `ImportError` fallback skips cleanup entirely). -/
def BoneSegmenter.segment_with_cleanup (hu_low hu_high : ℚ) (min_size : ℕ) (v : Volume) : Mask :=
  let mask := BoneSegmenter.segment hu_low hu_high v
  let filled := fillHolesMask mask
  if 1 < numComponents filled then keepLarge filled min_size else filled

/-- The number of true entries of one row. -/
def countRow (row : List Bool) : ℕ := row.count true

/-- The number of true entries of one slice. -/
def countSlice (s : Slice) : ℕ := (s.map countRow).sum

/-- The number of true voxels of a mask (`mask.sum()`). -/
def countMask (m : Mask) : ℕ := (m.map countSlice).sum

/-- The scalar value of a volume at voxel `(z, y, x)`, when in range. -/
def volGet (v : Volume) (z y x : ℕ) : Option ℚ :=
  (v[z]?.bind (fun sl => sl[y]?)).bind (fun row => row[x]?)

/-- The boolean entry of a mask at voxel `(z, y, x)`, when in range. -/
def maskGet (m : Mask) (z y x : ℕ) : Option Bool :=
  (m[z]?.bind (fun sl => sl[y]?)).bind (fun row => row[x]?)

/-- Modelled from the claim's words, for refinement comparison only: a bone
mask whose dual-mode detection is keyed on the observed value *range*
(`max − min`) exceeding 10, as the spec sentence states, rather than on the
maximum as the source does. -/
def specRangeBoneMask (hu_low hu_high : ℚ) (v : Volume) : Mask :=
  if 10 < listMax v.vals - listMin v.vals then
    thresholdMask hu_low hu_high v
  else
    thresholdMask ((hu_low + 1024) / 4024) (min ((hu_high + 1024) / 4024) 1) v

/-! ### Vertebra detection (`vertebra_detector.py`)

The bone-density profile and the boundary/filter logic are embedded
directly; the local-minima indices produced by `scipy.signal.find_peaks`
on the Gaussian-smoothed profile are an external-library result and enter
as an explicit `peaks` parameter. -/

namespace VertebraDetector

/-- Bone-voxel count per axial slice (`bone_mask.sum(axis=(1, 2))`). -/
def profile (m : Mask) : List ℕ := m.map countSlice

/-- Maximum of a natural-number list, 0 when empty. -/
def natMax (l : List ℕ) : ℕ := l.foldr max 0

/-- Boundary/filter part of `VertebraDetector.detect`: the detected axial
`(z_start, z_end)` ranges. If the profile maximum is below the noise floor
10, no vertebra is detected; else boundaries are the sorted peak indices
with 0 and `nz − 1` added, and each consecutive pair shorter than
`min_vertebra_slices` is discarded. -/
def detectRanges (peaks : List ℕ) (min_vertebra_slices : ℕ) (m : Mask) : List (ℕ × ℕ) :=
  let nz := m.length
  if natMax (profile m) < 10 then []
  else
    let bs := List.insertionSort (· ≤ ·) (0 :: peaks ++ [nz - 1])
    (bs.zip bs.tail).filter (fun p => decide (min_vertebra_slices ≤ p.2 - p.1))

/-- Rule-based status of `VertebraDetector._classify`; `height_mm` is
accepted and ignored, as in the source. -/
def classifyStatus (hu_mean comp_ratio height_mm : ℚ) : String :=
  if comp_ratio < 7 / 10 then "comprimée"
  else if hu_mean < 150 then "ostéopénique"
  else if 1 / 4 < |comp_ratio - 1| then "suspect"
  else "normal"

end VertebraDetector

/-! ### Vertebra classification (`vertebra_classifier.py`) -/

/-- Vertebra record as produced by the detector (`status` is the
rule-based label) and enriched in place by the classifier. -/
structure Vertebra where
  label : String
  z_start : ℕ
  z_end : ℕ
  height_mm : ℚ
  hu_mean : ℚ
  hu_std : ℚ
  bone_fraction : ℚ
  compression_ratio : ℚ
  status : String
  ml_status : Option String := none
  confidence : Option ℚ := none
  color : Option String := none
deriving DecidableEq

namespace VertebraClassifier

/-- Display colours per class (`CLASS_COLORS`). -/
def CLASS_COLORS : List (String × String) :=
  [("normal", "#4CAF50"), ("ostéopénique", "#FF9800"),
   ("suspect", "#F44336"), ("comprimée", "#9C27B0")]

/-- Colour lookup with the `"#AAAAAA"` default of the source. -/
def colorFor (s : String) : String :=
  ((CLASS_COLORS.find? (fun p => p.1 == s)).map Prod.snd).getD "#AAAAAA"

/-- Rounding to two decimals (`round(conf, 2)`). -/
def round2 (q : ℚ) : ℚ := (round (q * 100) : ℚ) / 100

/-- Model of `VertebraClassifier.classify`: the trained scikit-learn
pipeline is external and enters as an optional prediction function from
the feature vector to a class name and its probability; when it is absent
(import failure or training error) each vertebra falls back to its
rule-based `status` with fixed confidence 0.7. -/
def classify (model : Option (List ℚ → String × ℚ)) (vs : List Vertebra) : List Vertebra :=
  vs.map (fun v =>
    let features := [v.hu_mean, v.hu_std, v.height_mm, v.compression_ratio, v.bone_fraction]
    match model with
    | some pred =>
        let r := pred features
        { v with ml_status := some r.1, confidence := some (round2 r.2),
                 color := some (colorFor r.1) }
    | none =>
        { v with ml_status := some v.status, confidence := some (round2 (7 / 10)),
                 color := some (colorFor v.status) })

/-- A concrete vertebra record used to instantiate the fallback theorem. -/
def sampleVertebra : Vertebra :=
  { label := "L3", z_start := 0, z_end := 3, height_mm := 30, hu_mean := 600,
    hu_std := 80, bone_fraction := 5, compression_ratio := 1, status := "normal" }

end VertebraClassifier

/-! ### Mesh generation (`mesh_generator.py`) -/

/-- Result triple of `skimage.measure.marching_cubes` (external library). -/
structure MCResult where
  verts : List (ℚ × ℚ × ℚ)
  faces : List (ℕ × ℕ × ℕ)
  normals : List (ℚ × ℚ × ℚ)

/-- A triangle surface, standing in for `pyvista.PolyData`. -/
structure PolyData where
  points : List (ℚ × ℚ × ℚ)
  cells : List (ℕ × ℕ × ℕ)

namespace MeshGenerator

/-- Model of `_build_polydata`: wrap the marching-cubes vertices and faces. -/
def build_polydata (r : MCResult) : PolyData :=
  { points := r.verts, cells := r.faces }

/-- Model of `MeshGenerator.generate`: the marching-cubes call enters as an
`Except` value (`ValueError` when the level does not intersect the data),
and `_postprocess` (pyvista decimation/normals/smoothing, external) as a
function parameter. Extraction failure or fewer than 10 vertices yields
`none`. -/
def generate (mc : Except String MCResult) (post : PolyData → PolyData) : Option PolyData :=
  match mc with
  | .error _ => none
  | .ok r => if r.verts.length < 10 then none else some (post (build_polydata r))

end MeshGenerator

namespace VolumeBuilder

/-- Model of `VolumeBuilder.prepare`: normalize, compute the bone mask from
the original (un-normalized) values, then optionally smooth the normalized
volume only; the scipy Gaussian filter is external and enters as a
parameter. `spacing` is unused by the computation, as in the source. -/
def prepare (gaussian : Volume → Volume) (hu_low hu_high : ℚ)
    (v : Volume) (spacing : ℚ × ℚ × ℚ) (smooth : Bool) : Volume × Mask :=
  let volume_f := normalize v
  let bone_mask := compute_bone_mask hu_low hu_high v
  (if smooth then gaussian volume_f else volume_f, bone_mask)

end VolumeBuilder

/-! ### Quantitative analysis (`quantitative.py`) -/

namespace QuantitativeAnalyzer

/-- Model of `numpy.ptp`: maximum minus minimum. -/
def ptp (l : List ℚ) : ℚ := listMax l - listMin l

/-- Degree-1 least-squares fit `np.polyfit(z, x, 1)`, in closed form via
the normal equations: returns `(slope, intercept)`. -/
def polyfit1 (zs xs : List ℚ) : ℚ × ℚ :=
  let n : ℚ := zs.length
  let sz := zs.sum
  let sx := xs.sum
  let szz := (zs.map (fun z => z * z)).sum
  let szx := ((zs.zip xs).map (fun p => p.1 * p.2)).sum
  let slope := (n * szx - sz * sx) / (n * szz - sz * sz)
  (slope, (sx - slope * sz) / n)

/-- Residuals `x - np.polyval(coeffs, z)` of the fit. -/
def residuals (zs xs : List ℚ) : List ℚ :=
  (zs.zip xs).map (fun p => p.2 - ((polyfit1 zs xs).1 * p.1 + (polyfit1 zs xs).2))

/-- Longitudinal centroid coordinates (`centroids[:, 0]`). -/
def zsOf (cs : List (ℚ × ℚ × ℚ)) : List ℚ := cs.map (fun c => c.1)

/-- Secondary-axis centroid coordinates (`centroids[:, 2]`). -/
def xsOf (cs : List (ℚ × ℚ × ℚ)) : List ℚ := cs.map (fun c => c.2.2)

/-- Model of `QuantitativeAnalyzer._estimate_cobb` on the centroid list:
0 for fewer than 3 vertebrae, 0 when the longitudinal span is below 1,
otherwise `degrees(arctan2(res.ptp(), z.ptp()))`; in that branch
`z.ptp() ≥ 1 > 0`, so `arctan2` is the arctangent of the ratio. In this
exact-arithmetic embedding the guarded branch cannot fail numerically, so
the `except` clause of the source is unreachable. -/
noncomputable def estimate_cobb (cs : List (ℚ × ℚ × ℚ)) : ℝ :=
  if cs.length < 3 then 0
  else if ptp (zsOf cs) < 1 then 0
  else (180 / Real.pi) * Real.arctan
    (((ptp (residuals (zsOf cs) (xsOf cs)) : ℚ) : ℝ) / ((ptp (zsOf cs) : ℚ) : ℝ))

end QuantitativeAnalyzer

theorem foldl_max_le_of_mem : ∀ (xs : List ℚ) (x a : ℚ), a ∈ x :: xs → a ≤ xs.foldl max x := by
  intro xs
  induction xs with
  | nil => intro x a ha; simp at ha; simp [ha]
  | cons y ys ih =>
    intro x a ha
    have hstep : List.foldl max x (y :: ys) = ys.foldl max (max x y) := rfl
    rw [hstep]
    rcases List.mem_cons.mp ha with h | h
    · exact le_trans (h ▸ le_max_left x y) (ih (max x y) _ (List.mem_cons_self _ _))
    · rcases List.mem_cons.mp h with h' | h'
      · exact le_trans (h' ▸ le_max_right x y) (ih (max x y) _ (List.mem_cons_self _ _))
      · exact ih (max x y) a (List.mem_cons_of_mem _ h')

theorem foldl_max_mem : ∀ (xs : List ℚ) (x : ℚ), xs.foldl max x ∈ x :: xs := by
  intro xs
  induction xs with
  | nil => intro x; simp [List.foldl]
  | cons y ys ih =>
    intro x
    have hstep : List.foldl max x (y :: ys) = ys.foldl max (max x y) := rfl
    rw [hstep]
    rcases List.mem_cons.mp (ih (max x y)) with h | h
    · rcases max_choice x y with hc | hc <;> rw [h, hc] <;> simp
    · exact List.mem_cons_of_mem _ (List.mem_cons_of_mem _ h)

theorem le_foldl_min_of_mem : ∀ (xs : List ℚ) (x a : ℚ), a ∈ x :: xs → xs.foldl min x ≤ a := by
  intro xs
  induction xs with
  | nil => intro x a ha; simp at ha; simp [ha]
  | cons y ys ih =>
    intro x a ha
    have hstep : List.foldl min x (y :: ys) = ys.foldl min (min x y) := rfl
    rw [hstep]
    rcases List.mem_cons.mp ha with h | h
    · exact le_trans (ih (min x y) _ (List.mem_cons_self _ _)) (h ▸ min_le_left x y)
    · rcases List.mem_cons.mp h with h' | h'
      · exact le_trans (ih (min x y) _ (List.mem_cons_self _ _)) (h' ▸ min_le_right x y)
      · exact ih (min x y) a (List.mem_cons_of_mem _ h')

theorem foldl_min_mem : ∀ (xs : List ℚ) (x : ℚ), xs.foldl min x ∈ x :: xs := by
  intro xs
  induction xs with
  | nil => intro x; simp [List.foldl]
  | cons y ys ih =>
    intro x
    have hstep : List.foldl min x (y :: ys) = ys.foldl min (min x y) := rfl
    rw [hstep]
    rcases List.mem_cons.mp (ih (min x y)) with h | h
    · rcases min_choice x y with hc | hc <;> rw [h, hc] <;> simp
    · exact List.mem_cons_of_mem _ (List.mem_cons_of_mem _ h)

theorem le_listMax {l : List ℚ} {a : ℚ} (ha : a ∈ l) : a ≤ listMax l := by
  cases l with
  | nil => cases ha
  | cons x xs => exact foldl_max_le_of_mem xs x a ha

theorem listMax_mem {l : List ℚ} (h : l ≠ []) : listMax l ∈ l := by
  cases l with
  | nil => exact absurd rfl h
  | cons x xs => exact foldl_max_mem xs x

theorem listMin_le {l : List ℚ} {a : ℚ} (ha : a ∈ l) : listMin l ≤ a := by
  cases l with
  | nil => cases ha
  | cons x xs => exact le_foldl_min_of_mem xs x a ha

theorem listMin_mem {l : List ℚ} (h : l ≠ []) : listMin l ∈ l := by
  cases l with
  | nil => exact absurd rfl h
  | cons x xs => exact foldl_min_mem xs x

theorem vals_mapVol (f : ℚ → ℚ) (v : Volume) : (mapVol f v).vals = v.vals.map f := by
  simp only [Volume.vals, mapVol, List.map_flatten, List.map_map]
  refine congrArg List.flatten (List.map_congr_left ?_)
  intro sl _
  simp [Function.comp, List.map_flatten]

theorem maskGet_thresholdMask (lo hi : ℚ) (v : Volume) (z y x : ℕ) :
    maskGet (thresholdMask lo hi v) z y x
      = (volGet v z y x).map (fun q => decide (lo ≤ q ∧ q ≤ hi)) := by
  simp only [thresholdMask, maskGet, volGet, List.getElem?_map]
  cases v[z]? with
  | none => rfl
  | some sl =>
    simp only [Option.map_some', Option.some_bind, List.getElem?_map]
    cases sl[y]? with
    | none => rfl
    | some row =>
      simp [List.getElem?_map]

/-- C2 (counterexample): on the constant one-voxel volume `[[[300]]]` the
observed value range is `0 ≤ 10`, so the claim prescribes the rescaled
normalized window, under which `300` is not bone; the source keys the mode
on `max > 10` and marks the voxel as bone. -/
theorem c2_counterexample :
    BoneSegmenter.segment 200 1600 [[[300]]] ≠ specRangeBoneMask 200 1600 [[[300]]] := by
  have h1 : BoneSegmenter.segment 200 1600 [[[300]]] = [[[true]]] := by decide
  have h2 : specRangeBoneMask 200 1600 [[[300]]] = [[[false]]] := by
    rw [specRangeBoneMask]
    rw [if_neg (by norm_num [Volume.vals, listMax, listMin])]
    simp only [thresholdMask, List.map_cons, List.map_nil]
    norm_num
  rw [h1, h2]
  simp

/-- C2 (amended): `VolumeBuilder.compute_bone_mask` and
`BoneSegmenter.segment` compute the same mask, and for every in-range voxel
the mask value is the raw-HU window test when the volume's *maximum* exceeds
10, and the rescaled `[0,1]`-window test otherwise. -/
theorem c2_dual_mode_mask (lo hi : ℚ) (v : Volume) (z y x : ℕ) (q : ℚ)
    (hq : volGet v z y x = some q) :
    VolumeBuilder.compute_bone_mask lo hi v = BoneSegmenter.segment lo hi v
  ∧ maskGet (BoneSegmenter.segment lo hi v) z y x =
      some (if 10 < listMax v.vals
            then decide (lo ≤ q ∧ q ≤ hi)
            else decide ((lo + 1024) / 4024 ≤ q ∧ q ≤ min ((hi + 1024) / 4024) 1)) := by
  refine ⟨rfl, ?_⟩
  by_cases h : 10 < listMax v.vals
  · rw [if_pos h]
    rw [BoneSegmenter.segment, if_pos h, maskGet_thresholdMask, hq, Option.map_some']
  · rw [if_neg h]
    rw [BoneSegmenter.segment, if_neg h, maskGet_thresholdMask, hq, Option.map_some']

/-- C2 witness: the amended characterization evaluated on `[[[300]]]`. -/
theorem c2_dual_mode_mask_witness :
    maskGet (BoneSegmenter.segment 200 1600 [[[300]]]) 0 0 0 = some true := by
  have h := (c2_dual_mode_mask 200 1600 [[[300]]] 0 0 0 300 rfl).2
  rw [h]; decide

/-- C7: `VolumeBuilder.normalize` returns an all-zero volume when the value
range is below `1e-6`, and otherwise a volume with minimum exactly 0,
maximum exactly 1, and all values inside `[0, 1]`. -/
theorem c7_normalize_spec (v : Volume) (hne : v.vals ≠ []) :
    (listMax v.vals - listMin v.vals < 1 / 1000000 →
        ∀ q ∈ (VolumeBuilder.normalize v).vals, q = 0)
  ∧ (1 / 1000000 ≤ listMax v.vals - listMin v.vals →
        listMin (VolumeBuilder.normalize v).vals = 0
      ∧ listMax (VolumeBuilder.normalize v).vals = 1
      ∧ ∀ q ∈ (VolumeBuilder.normalize v).vals, 0 ≤ q ∧ q ≤ 1) := by
  constructor
  · intro hsmall q hq
    rw [VolumeBuilder.normalize, if_pos hsmall, vals_mapVol] at hq
    rcases List.mem_map.mp hq with ⟨_, _, rfl⟩
    rfl
  · intro hbig
    have hnotlt : ¬ listMax v.vals - listMin v.vals < 1 / 1000000 := not_lt.mpr hbig
    have hd : (0 : ℚ) < listMax v.vals - listMin v.vals := by
      have : (0 : ℚ) < 1 / 1000000 := by norm_num
      linarith
    rw [VolumeBuilder.normalize, if_neg hnotlt, vals_mapVol]
    set m := listMin v.vals with hm
    set M := listMax v.vals with hM
    set f : ℚ → ℚ := fun q => (q - m) / (M - m) with hf
    have hmapne : v.vals.map f ≠ [] := by
      intro hc
      exact hne (List.map_eq_nil_iff.mp hc)
    have hbound : ∀ q ∈ v.vals.map f, 0 ≤ q ∧ q ≤ 1 := by
      intro q hq
      rcases List.mem_map.mp hq with ⟨a, ha, rfl⟩
      constructor
      · exact div_nonneg (by linarith [listMin_le ha]) (le_of_lt hd)
      · rw [div_le_one hd]
        linarith [le_listMax ha]
    refine ⟨?_, ?_, hbound⟩
    · have h0mem : (0 : ℚ) ∈ v.vals.map f := by
        refine List.mem_map.mpr ⟨m, listMin_mem hne, ?_⟩
        simp [hf]
      have hle : listMin (v.vals.map f) ≤ 0 := listMin_le h0mem
      have hge : 0 ≤ listMin (v.vals.map f) :=
        (hbound _ (listMin_mem hmapne)).1
      linarith
    · have h1mem : (1 : ℚ) ∈ v.vals.map f := by
        refine List.mem_map.mpr ⟨M, listMax_mem hne, ?_⟩
        field_simp [hf]
      have hge : 1 ≤ listMax (v.vals.map f) := le_listMax h1mem
      have hle : listMax (v.vals.map f) ≤ 1 :=
        (hbound _ (listMax_mem hmapne)).2
      linarith

/-- C7 witness: normalization evaluated on a constant and a non-constant
concrete volume. -/
theorem c7_normalize_spec_witness :
    (∀ q ∈ (VolumeBuilder.normalize [[[(5 : ℚ), 5]]]).vals, q = 0)
  ∧ (listMin (VolumeBuilder.normalize [[[(0 : ℚ), 2]]]).vals = 0
      ∧ listMax (VolumeBuilder.normalize [[[(0 : ℚ), 2]]]).vals = 1
      ∧ ∀ q ∈ (VolumeBuilder.normalize [[[(0 : ℚ), 2]]]).vals, 0 ≤ q ∧ q ≤ 1) :=
  ⟨(c7_normalize_spec [[[(5 : ℚ), 5]]] (by decide)).1
      (by norm_num [Volume.vals, listMax, listMin]),
   (c7_normalize_spec [[[(0 : ℚ), 2]]] (by decide)).2
      (by norm_num [Volume.vals, listMax, listMin])⟩

theorem countRow_enumKeep_le (g : ℕ → Bool) :
    ∀ (row : List Bool) (n : ℕ),
      countRow ((row.enumFrom n).map (fun xb => xb.2 && g xb.1)) ≤ countRow row := by
  intro row
  induction row with
  | nil => intro n; exact Nat.le_refl 0
  | cons b t ih =>
    intro n
    show countRow ((b && g n) :: (t.enumFrom (n + 1)).map (fun xb => xb.2 && g xb.1))
          ≤ countRow (b :: t)
    simp only [countRow, List.count_cons]
    refine Nat.add_le_add (ih (n + 1)) ?_
    cases b <;> cases g n <;> simp

theorem countRow_rowKeep_le (g : ℕ → Bool) (row : List Bool) :
    countRow (rowKeep g row) ≤ countRow row :=
  countRow_enumKeep_le g row 0

theorem countSlice_enumKeep_le (g : ℕ → ℕ → Bool) :
    ∀ (s : Slice) (n : ℕ),
      countSlice ((s.enumFrom n).map (fun yrow => rowKeep (g yrow.1) yrow.2)) ≤ countSlice s := by
  intro s
  induction s with
  | nil => intro n; exact Nat.le_refl 0
  | cons row t ih =>
    intro n
    show countSlice (rowKeep (g n) row :: (t.enumFrom (n + 1)).map (fun yrow => rowKeep (g yrow.1) yrow.2))
          ≤ countSlice (row :: t)
    simp only [countSlice, List.map_cons, List.sum_cons]
    exact Nat.add_le_add (countRow_rowKeep_le (g n) row) (ih (n + 1))

theorem countSlice_sliceKeep_le (g : ℕ → ℕ → Bool) (s : Slice) :
    countSlice (sliceKeep g s) ≤ countSlice s :=
  countSlice_enumKeep_le g s 0

theorem countMask_enumKeep_le (g : ℕ → ℕ → ℕ → Bool) :
    ∀ (m : Mask) (n : ℕ),
      countMask ((m.enumFrom n).map (fun zsl => sliceKeep (g zsl.1) zsl.2)) ≤ countMask m := by
  intro m
  induction m with
  | nil => intro n; exact Nat.le_refl 0
  | cons s t ih =>
    intro n
    show countMask (sliceKeep (g n) s :: (t.enumFrom (n + 1)).map (fun zsl => sliceKeep (g zsl.1) zsl.2))
          ≤ countMask (s :: t)
    simp only [countMask, List.map_cons, List.sum_cons]
    exact Nat.add_le_add (countSlice_sliceKeep_le (g n) s) (ih (n + 1))

theorem countMask_keepLarge_le (m : Mask) (k : ℕ) :
    countMask (keepLarge m k) ≤ countMask m :=
  countMask_enumKeep_le (fun z y x => decide (k ≤ compSize m (z, y, x))) m 0

theorem enumKeep_true (g : ℕ → Bool) (hg : ∀ i, g i = true) :
    ∀ (row : List Bool) (n : ℕ),
      (row.enumFrom n).map (fun xb => xb.2 && g xb.1) = row := by
  intro row
  induction row with
  | nil => intro n; rfl
  | cons b t ih =>
    intro n
    show (b && g n) :: (t.enumFrom (n + 1)).map (fun xb => xb.2 && g xb.1) = b :: t
    rw [hg n, Bool.and_true, ih (n + 1)]

theorem rowKeep_true (g : ℕ → Bool) (hg : ∀ i, g i = true) (row : List Bool) :
    rowKeep g row = row :=
  enumKeep_true g hg row 0

theorem sliceEnumKeep_true (g : ℕ → ℕ → Bool) (hg : ∀ y x, g y x = true) :
    ∀ (s : Slice) (n : ℕ),
      (s.enumFrom n).map (fun yrow => rowKeep (g yrow.1) yrow.2) = s := by
  intro s
  induction s with
  | nil => intro n; rfl
  | cons row t ih =>
    intro n
    show rowKeep (g n) row :: (t.enumFrom (n + 1)).map (fun yrow => rowKeep (g yrow.1) yrow.2)
          = row :: t
    rw [rowKeep_true (g n) (hg n) row, ih (n + 1)]

theorem sliceKeep_true (g : ℕ → ℕ → Bool) (hg : ∀ y x, g y x = true) (s : Slice) :
    sliceKeep g s = s :=
  sliceEnumKeep_true g hg s 0

theorem maskEnumKeep_true (g : ℕ → ℕ → ℕ → Bool) (hg : ∀ z y x, g z y x = true) :
    ∀ (m : Mask) (n : ℕ),
      (m.enumFrom n).map (fun zsl => sliceKeep (g zsl.1) zsl.2) = m := by
  intro m
  induction m with
  | nil => intro n; rfl
  | cons s t ih =>
    intro n
    show sliceKeep (g n) s :: (t.enumFrom (n + 1)).map (fun zsl => sliceKeep (g zsl.1) zsl.2)
          = s :: t
    rw [sliceKeep_true (g n) (hg n) s, ih (n + 1)]

theorem keepLarge_zero (m : Mask) : keepLarge m 0 = m :=
  maskEnumKeep_true (fun z y x => decide (0 ≤ compSize m (z, y, x)))
    (fun _ _ _ => by simp) m 0

theorem getElem?_rowKeep (g : ℕ → Bool) (row : List Bool) (x : ℕ) :
    (rowKeep g row)[x]? = (row[x]?).map (fun b => b && g x) := by
  cases h : row[x]? with
  | none => simp [rowKeep, List.enum, List.getElem?_map, List.getElem?_enumFrom, h]
  | some b => simp [rowKeep, List.enum, List.getElem?_map, List.getElem?_enumFrom, h]

theorem getElem?_sliceKeep (g : ℕ → ℕ → Bool) (s : Slice) (y : ℕ) :
    (sliceKeep g s)[y]? = (s[y]?).map (fun row => rowKeep (g y) row) := by
  cases h : s[y]? with
  | none => simp [sliceKeep, List.enum, List.getElem?_map, List.getElem?_enumFrom, h]
  | some row => simp [sliceKeep, List.enum, List.getElem?_map, List.getElem?_enumFrom, h]

theorem getElem?_keepLarge (m : Mask) (k : ℕ) (z : ℕ) :
    (keepLarge m k)[z]?
      = (m[z]?).map (fun sl => sliceKeep (fun y x => decide (k ≤ compSize m (z, y, x))) sl) := by
  cases h : m[z]? with
  | none => simp [keepLarge, List.enum, List.getElem?_map, List.getElem?_enumFrom, h]
  | some sl => simp [keepLarge, List.enum, List.getElem?_map, List.getElem?_enumFrom, h]

theorem maskPix_keepLarge (m : Mask) (k : ℕ) (c : Coord) :
    maskPix (keepLarge m k) c = (maskPix m c && decide (k ≤ compSize m c)) := by
  obtain ⟨z, y, x⟩ := c
  simp only [maskPix, List.getD_eq_getElem?_getD, getElem?_keepLarge]
  cases hz : m[z]? with
  | none => simp
  | some sl =>
    simp only [Option.map_some', Option.getD_some, getElem?_sliceKeep]
    cases hy : sl[y]? with
    | none => simp
    | some row =>
      simp only [Option.map_some', Option.getD_some, getElem?_rowKeep]
      cases hx : row[x]? with
      | none => simp
      | some b => simp

/-- C1 (counterexample): on a 3×3 ring of bone density 300 with an interior
hole, per-slice hole filling adds the centre voxel, so cleanup with
`min_size = 0` has 9 true voxels against 8 for plain `segment`, and the two
masks differ. -/
theorem c1_counterexample :
    countMask (BoneSegmenter.segment 200 1600
        [[[300, 300, 300], [300, 0, 300], [300, 300, 300]]]) = 8
  ∧ countMask (BoneSegmenter.segment_with_cleanup 200 1600 0
        [[[300, 300, 300], [300, 0, 300], [300, 300, 300]]]) = 9
  ∧ BoneSegmenter.segment_with_cleanup 200 1600 0
        [[[300, 300, 300], [300, 0, 300], [300, 300, 300]]]
      ≠ BoneSegmenter.segment 200 1600
        [[[300, 300, 300], [300, 0, 300], [300, 300, 300]]] := by
  refine ⟨by decide, by decide, by decide⟩

/-- C1 (amended): relative to the hole-filled threshold mask — not the raw
`segment` mask — cleanup never increases the voxel count, and with
`min_size = 0` it returns exactly the hole-filled mask. -/
theorem c1_cleanup_monotone (lo hi : ℚ) (minSize : ℕ) (v : Volume) :
    countMask (BoneSegmenter.segment_with_cleanup lo hi minSize v)
      ≤ countMask (fillHolesMask (BoneSegmenter.segment lo hi v))
  ∧ BoneSegmenter.segment_with_cleanup lo hi 0 v
      = fillHolesMask (BoneSegmenter.segment lo hi v) := by
  constructor
  · by_cases h : 1 < numComponents (fillHolesMask (BoneSegmenter.segment lo hi v))
    · simp only [BoneSegmenter.segment_with_cleanup, if_pos h]
      exact countMask_keepLarge_le _ _
    · simp only [BoneSegmenter.segment_with_cleanup, if_neg h]
      exact Nat.le_refl _
  · by_cases h : 1 < numComponents (fillHolesMask (BoneSegmenter.segment lo hi v))
    · simp only [BoneSegmenter.segment_with_cleanup, if_pos h]
      exact keepLarge_zero _
    · simp only [BoneSegmenter.segment_with_cleanup, if_neg h]

/-- C3 (counterexample): a single one-voxel component survives cleanup with
`min_size = 500` because the source filters components only when more than
one was labeled; the claim says no component below `min_size` may remain. -/
theorem c3_counterexample :
    maskPix (BoneSegmenter.segment_with_cleanup 200 1600 500 [[[300]]]) (0, 0, 0) = true
  ∧ compSize (fillHolesMask (BoneSegmenter.segment 200 1600 [[[300]]])) (0, 0, 0) = 1 := by
  refine ⟨by decide, by decide⟩

/-- C3 (amended): when the hole-filled threshold mask has more than one
connected component, cleanup keeps exactly the voxels whose component has
at least `min_size` voxels; with at most one component the hole-filled mask
is returned unchanged. -/
theorem c3_component_filter (lo hi : ℚ) (minSize : ℕ) (v : Volume) (c : Coord) :
    (1 < numComponents (fillHolesMask (BoneSegmenter.segment lo hi v)) →
      (maskPix (BoneSegmenter.segment_with_cleanup lo hi minSize v) c = true ↔
        maskPix (fillHolesMask (BoneSegmenter.segment lo hi v)) c = true
          ∧ minSize ≤ compSize (fillHolesMask (BoneSegmenter.segment lo hi v)) c))
  ∧ (numComponents (fillHolesMask (BoneSegmenter.segment lo hi v)) ≤ 1 →
      BoneSegmenter.segment_with_cleanup lo hi minSize v
        = fillHolesMask (BoneSegmenter.segment lo hi v)) := by
  constructor
  · intro h
    simp only [BoneSegmenter.segment_with_cleanup, if_pos h]
    rw [maskPix_keepLarge]
    simp [Bool.and_eq_true, decide_eq_true_eq]
  · intro h
    simp only [BoneSegmenter.segment_with_cleanup, if_neg (not_lt.mpr h)]

/-- C3 witness: the amended component filter evaluated on a mask with two
one-voxel components and `min_size = 2`. -/
theorem c3_component_filter_witness :
    maskPix (BoneSegmenter.segment_with_cleanup 200 1600 2 [[[300, 0, 300]]]) (0, 0, 0) = true ↔
      maskPix (fillHolesMask (BoneSegmenter.segment 200 1600 [[[300, 0, 300]]])) (0, 0, 0) = true
        ∧ 2 ≤ compSize (fillHolesMask (BoneSegmenter.segment 200 1600 [[[300, 0, 300]]])) (0, 0, 0) :=
  (c3_component_filter 200 1600 2 [[[300, 0, 300]]] (0, 0, 0)).1 (by decide)

theorem pairwise_zip_tail : ∀ (l : List ℕ), l.Sorted (· ≤ ·) →
    (l.zip l.tail).Pairwise (fun p q : ℕ × ℕ => p.2 ≤ q.1)
  | [], _ => by simp
  | [_], _ => by simp
  | a :: b :: t, h => by
    have hbt : (b :: t).Sorted (· ≤ ·) := (List.sorted_cons.mp h).2
    refine List.pairwise_cons.mpr ⟨?_, pairwise_zip_tail (b :: t) hbt⟩
    intro q hq
    obtain ⟨q1, q2⟩ := q
    have hq1 : q1 ∈ b :: t := (List.of_mem_zip hq).1
    rcases List.mem_cons.mp hq1 with h' | h'
    · exact h' ▸ le_refl b
    · exact (List.sorted_cons.mp hbt).1 q1 h'

/-- C4: every range returned by `VertebraDetector.detect` satisfies
`z_start < z_end` and `z_end − z_start ≥ min_vertebra_slices`, and
consecutive ranges never overlap (`z_end[i] ≤ z_start[i+1]`), for any peak
list and any positive `min_vertebra_slices`. -/
theorem c4_vertebra_ranges (peaks : List ℕ) (min_vertebra_slices : ℕ) (m : Mask)
    (hmin : 1 ≤ min_vertebra_slices) :
    (∀ p ∈ VertebraDetector.detectRanges peaks min_vertebra_slices m,
        p.1 < p.2 ∧ min_vertebra_slices ≤ p.2 - p.1)
  ∧ List.Chain' (fun p q : ℕ × ℕ => p.2 ≤ q.1)
      (VertebraDetector.detectRanges peaks min_vertebra_slices m) := by
  by_cases hp : VertebraDetector.natMax (VertebraDetector.profile m) < 10
  · simp [VertebraDetector.detectRanges, hp]
  · constructor
    · intro p hpmem
      simp only [VertebraDetector.detectRanges, if_neg hp] at hpmem
      have hfil := (List.mem_filter.mp hpmem).2
      have hle : min_vertebra_slices ≤ p.2 - p.1 := of_decide_eq_true hfil
      refine ⟨?_, hle⟩
      omega
    · simp only [VertebraDetector.detectRanges, if_neg hp]
      refine List.Pairwise.chain' ?_
      refine List.Pairwise.sublist (List.filter_sublist _) ?_
      exact pairwise_zip_tail _ (List.sorted_insertionSort (· ≤ ·) _)

/-- C4 witness: the range invariants evaluated on a 7-slice mask with a
single interior peak at slice 3. -/
theorem c4_vertebra_ranges_witness :
    (∀ p ∈ VertebraDetector.detectRanges [3] 3 (List.replicate 7 [List.replicate 12 true]),
        p.1 < p.2 ∧ 3 ≤ p.2 - p.1)
  ∧ List.Chain' (fun p q : ℕ × ℕ => p.2 ≤ q.1)
      (VertebraDetector.detectRanges [3] 3 (List.replicate 7 [List.replicate 12 true])) :=
  c4_vertebra_ranges [3] 3 (List.replicate 7 [List.replicate 12 true]) (by decide)

/-- C5: the rule-based status is decided in order — compression ratio below
0.7 gives "comprimée", else HU mean below 150 gives "ostéopénique", else
`|ratio − 1| > 0.25` gives "suspect", else "normal" — and is always exactly
one of these four strings. -/
theorem c5_classify_rules (hu comp h : ℚ) :
    (VertebraDetector.classifyStatus hu comp h = "comprimée" ↔ comp < 7 / 10)
  ∧ (VertebraDetector.classifyStatus hu comp h = "ostéopénique" ↔
      ¬ comp < 7 / 10 ∧ hu < 150)
  ∧ (VertebraDetector.classifyStatus hu comp h = "suspect" ↔
      ¬ comp < 7 / 10 ∧ ¬ hu < 150 ∧ 1 / 4 < |comp - 1|)
  ∧ (VertebraDetector.classifyStatus hu comp h = "normal" ↔
      ¬ comp < 7 / 10 ∧ ¬ hu < 150 ∧ ¬ 1 / 4 < |comp - 1|)
  ∧ VertebraDetector.classifyStatus hu comp h
      ∈ ["normal", "ostéopénique", "suspect", "comprimée"] := by
  by_cases h1 : comp < 7 / 10 <;>
    by_cases h2 : hu < 150 <;>
      by_cases h3 : 1 / 4 < |comp - 1| <;>
        simp only [VertebraDetector.classifyStatus, h1, h2, h3, if_true, if_false,
          eq_self_iff_true, not_true, not_false_iff] <;>
        decide

theorem round2_seven_tenths : VertebraClassifier.round2 (7 / 10) = 7 / 10 := by
  have h : (7 / 10 : ℚ) * 100 = ((70 : ℤ) : ℚ) := by norm_num
  rw [VertebraClassifier.round2, h, round_intCast]
  norm_num

/-- C8: without a trained model, `VertebraClassifier.classify` maps every
vertebra to a copy whose `ml_status` is its own rule-based `status`, with
the fixed moderate confidence 0.7; list length, `status` and `label` are
preserved, and the function is total (never raises). -/
theorem c8_classifier_fallback (vs : List Vertebra) (i : ℕ) (v : Vertebra)
    (hv : vs[i]? = some v) :
    (VertebraClassifier.classify none vs).length = vs.length
  ∧ ∃ w, (VertebraClassifier.classify none vs)[i]? = some w
      ∧ w.ml_status = some v.status
      ∧ w.confidence = some (7 / 10)
      ∧ w.status = v.status
      ∧ w.label = v.label := by
  constructor
  · simp [VertebraClassifier.classify]
  · refine ⟨{ v with ml_status := some v.status, confidence := some (VertebraClassifier.round2 (7 / 10)), color := some (VertebraClassifier.colorFor v.status) }, ?_, rfl, ?_, rfl, rfl⟩
    · simp [VertebraClassifier.classify, List.getElem?_map, hv]
    · simp [round2_seven_tenths]

/-- C8 witness: the fallback evaluated on a one-element vertebra list. -/
theorem c8_classifier_fallback_witness :
    (VertebraClassifier.classify none [VertebraClassifier.sampleVertebra]).length
        = [VertebraClassifier.sampleVertebra].length
  ∧ ∃ w, (VertebraClassifier.classify none [VertebraClassifier.sampleVertebra])[0]? = some w
      ∧ w.ml_status = some VertebraClassifier.sampleVertebra.status
      ∧ w.confidence = some (7 / 10)
      ∧ w.status = VertebraClassifier.sampleVertebra.status
      ∧ w.label = VertebraClassifier.sampleVertebra.label :=
  c8_classifier_fallback [VertebraClassifier.sampleVertebra] 0
    VertebraClassifier.sampleVertebra rfl

/-- C9: `MeshGenerator.generate` returns `None` — without raising — both
when isosurface extraction fails with a `ValueError` and when it yields
fewer than 10 vertices. -/
theorem c9_generate_failure_policy (post : PolyData → PolyData) (mc : Except String MCResult) :
    (∀ e, mc = Except.error e → MeshGenerator.generate mc post = none)
  ∧ (∀ r, mc = Except.ok r → r.verts.length < 10 → MeshGenerator.generate mc post = none) := by
  constructor
  · rintro e rfl
    rfl
  · rintro r rfl h
    simp [MeshGenerator.generate, h]

/-- C9 witness: both failure modes evaluated concretely. -/
theorem c9_generate_failure_policy_witness :
    MeshGenerator.generate (Except.error "level outside data range") id = none
  ∧ MeshGenerator.generate (Except.ok { verts := [], faces := [], normals := [] }) id = none :=
  ⟨(c9_generate_failure_policy id (Except.error "level outside data range")).1 _ rfl,
   (c9_generate_failure_policy id (Except.ok { verts := [], faces := [], normals := [] })).2
      { verts := [], faces := [], normals := [] } rfl (by decide)⟩

/-- C10: the bone mask returned by `VolumeBuilder.prepare` is computed from
the original volume only: it equals `compute_bone_mask` of the input for
either value of `smooth`, and smoothing transforms only the returned
normalized volume. In this pure embedding the input volume is never
mutated. -/
theorem c10_prepare_mask_independent (gaussian : Volume → Volume) (lo hi : ℚ)
    (v : Volume) (sp : ℚ × ℚ × ℚ) (s : Bool) :
    (VolumeBuilder.prepare gaussian lo hi v sp s).2 = VolumeBuilder.compute_bone_mask lo hi v
  ∧ (VolumeBuilder.prepare gaussian lo hi v sp true).2
      = (VolumeBuilder.prepare gaussian lo hi v sp false).2
  ∧ (VolumeBuilder.prepare gaussian lo hi v sp true).1
      = gaussian ((VolumeBuilder.prepare gaussian lo hi v sp false).1) :=
  ⟨rfl, rfl, rfl⟩

theorem sum_map_linear (c1 c2 c3 : ℚ) (f g : ℚ → ℚ) :
    ∀ l : List ℚ, (l.map (fun p => c1 * f p + c2 * g p + c3)).sum
      = c1 * (l.map f).sum + c2 * (l.map g).sum + c3 * l.length := by
  intro l
  induction l with
  | nil => simp
  | cons p t ih =>
    simp only [List.map_cons, List.sum_cons, List.length_cons, ih]
    push_cast
    ring

theorem sum_sq_diff_inner (p : ℚ) : ∀ zs : List ℚ,
    (zs.map (fun q => (p - q) * (p - q))).sum
      = (zs.length : ℚ) * (p * p) - 2 * p * zs.sum + (zs.map (fun q => q * q)).sum := by
  intro zs
  induction zs with
  | nil => simp
  | cons q t ih =>
    simp only [List.map_cons, List.sum_cons, List.length_cons, ih]
    push_cast
    ring

theorem sum_sq_diff_double (zs : List ℚ) :
    (zs.map (fun p => (zs.map (fun q => (p - q) * (p - q))).sum)).sum
      = 2 * ((zs.length : ℚ) * (zs.map (fun q => q * q)).sum - zs.sum * zs.sum) := by
  have h1 : (zs.map (fun p => (zs.map (fun q => (p - q) * (p - q))).sum)).sum
      = (zs.map (fun p => (zs.length : ℚ) * (p * p) + (-(2 * zs.sum)) * p
          + (zs.map (fun q => q * q)).sum)).sum := by
    refine congrArg List.sum (List.map_congr_left ?_)
    intro p _
    rw [sum_sq_diff_inner p zs]
    ring
  rw [h1, sum_map_linear ((zs.length : ℚ)) (-(2 * zs.sum)) ((zs.map (fun q => q * q)).sum)
    (fun p => p * p) (fun p => p) zs]
  rw [List.map_id']
  ring

theorem normal_matrix_pos (zs : List ℚ) (u v : ℚ) (hu : u ∈ zs) (hv : v ∈ zs)
    (huv : u ≠ v) :
    0 < (zs.length : ℚ) * (zs.map (fun q => q * q)).sum - zs.sum * zs.sum := by
  have hinner_nonneg : ∀ p : ℚ, ∀ x ∈ zs.map (fun q => (p - q) * (p - q)), (0 : ℚ) ≤ x := by
    intro p x hx
    rcases List.mem_map.mp hx with ⟨q, _, rfl⟩
    exact mul_self_nonneg _
  have houter_nonneg :
      ∀ x ∈ zs.map (fun p => (zs.map (fun q => (p - q) * (p - q))).sum), (0 : ℚ) ≤ x := by
    intro x hx
    rcases List.mem_map.mp hx with ⟨p, _, rfl⟩
    exact List.sum_nonneg (hinner_nonneg p)
  have hinner_le : (u - v) * (u - v) ≤ (zs.map (fun q => (u - q) * (u - q))).sum :=
    List.single_le_sum (hinner_nonneg u) _ (List.mem_map.mpr ⟨v, hv, rfl⟩)
  have houter_le : (zs.map (fun q => (u - q) * (u - q))).sum
      ≤ (zs.map (fun p => (zs.map (fun q => (p - q) * (p - q))).sum)).sum :=
    List.single_le_sum houter_nonneg _ (List.mem_map.mpr ⟨u, hu, rfl⟩)
  have hpos : (0 : ℚ) < (u - v) * (u - v) := mul_self_pos.mpr (sub_ne_zero.mpr huv)
  have hdouble := sum_sq_diff_double zs
  linarith

theorem collinear_sums (a b : ℚ) : ∀ cs : List (ℚ × ℚ × ℚ),
    (∀ c ∈ cs, c.2.2 = a * c.1 + b) →
    (QuantitativeAnalyzer.xsOf cs).sum
        = a * (QuantitativeAnalyzer.zsOf cs).sum + b * cs.length
  ∧ (((QuantitativeAnalyzer.zsOf cs).zip (QuantitativeAnalyzer.xsOf cs)).map
        (fun p => p.1 * p.2)).sum
      = a * ((QuantitativeAnalyzer.zsOf cs).map (fun z => z * z)).sum
        + b * (QuantitativeAnalyzer.zsOf cs).sum := by
  intro cs
  induction cs with
  | nil =>
    intro _
    constructor <;> simp [QuantitativeAnalyzer.zsOf, QuantitativeAnalyzer.xsOf]
  | cons c t ih =>
    intro h
    have hc := h c (List.mem_cons_self c t)
    have ht := ih (fun d hd => h d (List.mem_cons_of_mem c hd))
    constructor
    · simp only [QuantitativeAnalyzer.zsOf, QuantitativeAnalyzer.xsOf, List.map_cons,
        List.sum_cons, List.length_cons] at *
      rw [hc, ht.1]
      push_cast
      ring
    · simp only [QuantitativeAnalyzer.zsOf, QuantitativeAnalyzer.xsOf, List.map_cons,
        List.zip_cons_cons, List.sum_cons] at *
      rw [hc, ht.2]
      ring

theorem ptp_eq_zero_of_all_zero {l : List ℚ} (hne : l ≠ []) (h : ∀ q ∈ l, q = 0) :
    QuantitativeAnalyzer.ptp l = 0 := by
  have hmax : listMax l = 0 := h _ (listMax_mem hne)
  have hmin : listMin l = 0 := h _ (listMin_mem hne)
  simp [QuantitativeAnalyzer.ptp, hmax, hmin]

theorem residuals_zero_of_collinear (a b : ℚ) (cs : List (ℚ × ℚ × ℚ))
    (hcol : ∀ c ∈ cs, c.2.2 = a * c.1 + b) (hlen : 3 ≤ cs.length)
    (hspan : 1 ≤ QuantitativeAnalyzer.ptp (QuantitativeAnalyzer.zsOf cs)) :
    ∀ r ∈ QuantitativeAnalyzer.residuals (QuantitativeAnalyzer.zsOf cs)
        (QuantitativeAnalyzer.xsOf cs), r = 0 := by
  set zs := QuantitativeAnalyzer.zsOf cs with hzs
  set xs := QuantitativeAnalyzer.xsOf cs with hxs
  have hlenzs : zs.length = cs.length := List.length_map _ _
  have hne : zs ≠ [] := by
    rw [← List.length_pos, hlenzs]
    omega
  have huv : listMax zs ≠ listMin zs := by
    intro hc
    rw [QuantitativeAnalyzer.ptp, hc] at hspan
    simp at hspan
    linarith
  have hdpos : 0 < (zs.length : ℚ) * (zs.map (fun q => q * q)).sum - zs.sum * zs.sum :=
    normal_matrix_pos zs (listMax zs) (listMin zs) (listMax_mem hne) (listMin_mem hne) huv
  have hdne : (zs.length : ℚ) * (zs.map (fun q => q * q)).sum - zs.sum * zs.sum ≠ 0 :=
    ne_of_gt hdpos
  have hLne : ((zs.length : ℚ)) ≠ 0 := by
    rw [hlenzs]
    exact_mod_cast Nat.pos_iff_ne_zero.mp (by omega)
  have hsums := collinear_sums a b cs hcol
  have hsum1 : xs.sum = a * zs.sum + b * (zs.length : ℚ) := by
    rw [hxs, hzs, hsums.1, hlenzs]
  have hsum2 : ((zs.zip xs).map (fun p => p.1 * p.2)).sum
      = a * (zs.map (fun z => z * z)).sum + b * zs.sum := hsums.2
  have hslope : (QuantitativeAnalyzer.polyfit1 zs xs).1 = a := by
    show ((zs.length : ℚ) * ((zs.zip xs).map (fun p => p.1 * p.2)).sum - zs.sum * xs.sum)
        / ((zs.length : ℚ) * (zs.map (fun z => z * z)).sum - zs.sum * zs.sum) = a
    rw [hsum2, hsum1]
    have hid : (zs.length : ℚ) * (a * (zs.map (fun z => z * z)).sum + b * zs.sum)
        - zs.sum * (a * zs.sum + b * (zs.length : ℚ))
      = a * ((zs.length : ℚ) * (zs.map (fun z => z * z)).sum - zs.sum * zs.sum) := by
      ring
    rw [hid]
    exact mul_div_cancel_right₀ a hdne
  have hitc : (QuantitativeAnalyzer.polyfit1 zs xs).2 = b := by
    show (xs.sum - ((zs.length : ℚ) * ((zs.zip xs).map (fun p => p.1 * p.2)).sum
          - zs.sum * xs.sum)
        / ((zs.length : ℚ) * (zs.map (fun z => z * z)).sum - zs.sum * zs.sum) * zs.sum)
        / (zs.length : ℚ) = b
    have hsl := hslope
    rw [show ((zs.length : ℚ) * ((zs.zip xs).map (fun p => p.1 * p.2)).sum - zs.sum * xs.sum)
        / ((zs.length : ℚ) * (zs.map (fun z => z * z)).sum - zs.sum * zs.sum) = a from hsl]
    rw [hsum1]
    have hid : a * zs.sum + b * (zs.length : ℚ) - a * zs.sum = b * (zs.length : ℚ) := by
      ring
    rw [hid]
    exact mul_div_cancel_right₀ b hLne
  intro r hr
  rw [QuantitativeAnalyzer.residuals, hslope, hitc] at hr
  have hzip : zs.zip xs = cs.map (fun c => (c.1, c.2.2)) := by
    rw [hzs, hxs, QuantitativeAnalyzer.zsOf, QuantitativeAnalyzer.xsOf, List.zip_map']
  rw [hzip, List.map_map] at hr
  rcases List.mem_map.mp hr with ⟨c, hcmem, rfl⟩
  simp only [Function.comp]
  rw [hcol c hcmem]
  ring

/-- C6: the curvature estimate is 0 for fewer than 3 vertebrae, 0 when the
longitudinal centroid span is below the near-zero threshold 1, 0 whenever
the centroids are collinear (the least-squares residuals vanish exactly),
and otherwise equals `degrees(arctan(residual span / longitudinal span))`;
the function is total, so no numerical failure propagates. -/
theorem c6_cobb_spec (cs : List (ℚ × ℚ × ℚ)) :
    (cs.length < 3 → QuantitativeAnalyzer.estimate_cobb cs = 0)
  ∧ (QuantitativeAnalyzer.ptp (QuantitativeAnalyzer.zsOf cs) < 1 →
      QuantitativeAnalyzer.estimate_cobb cs = 0)
  ∧ ((∃ a b : ℚ, ∀ c ∈ cs, c.2.2 = a * c.1 + b) →
      QuantitativeAnalyzer.estimate_cobb cs = 0)
  ∧ (3 ≤ cs.length → 1 ≤ QuantitativeAnalyzer.ptp (QuantitativeAnalyzer.zsOf cs) →
      QuantitativeAnalyzer.estimate_cobb cs
        = (180 / Real.pi) * Real.arctan
            (((QuantitativeAnalyzer.ptp (QuantitativeAnalyzer.residuals
                (QuantitativeAnalyzer.zsOf cs) (QuantitativeAnalyzer.xsOf cs)) : ℚ) : ℝ)
              / ((QuantitativeAnalyzer.ptp (QuantitativeAnalyzer.zsOf cs) : ℚ) : ℝ))) := by
  refine ⟨?_, ?_, ?_, ?_⟩
  · intro h
    simp [QuantitativeAnalyzer.estimate_cobb, h]
  · intro h
    by_cases hlen : cs.length < 3
    · simp [QuantitativeAnalyzer.estimate_cobb, hlen]
    · simp [QuantitativeAnalyzer.estimate_cobb, hlen, h]
  · rintro ⟨a, b, hcol⟩
    by_cases hlen : cs.length < 3
    · simp [QuantitativeAnalyzer.estimate_cobb, hlen]
    · by_cases hspan : QuantitativeAnalyzer.ptp (QuantitativeAnalyzer.zsOf cs) < 1
      · simp [QuantitativeAnalyzer.estimate_cobb, hlen, hspan]
      · have hres := residuals_zero_of_collinear a b cs hcol (by omega) (not_lt.mp hspan)
        have hresne : QuantitativeAnalyzer.residuals (QuantitativeAnalyzer.zsOf cs)
            (QuantitativeAnalyzer.xsOf cs) ≠ [] := by
          rw [← List.length_pos, QuantitativeAnalyzer.residuals, List.length_map,
            List.length_zip, QuantitativeAnalyzer.zsOf, QuantitativeAnalyzer.xsOf,
            List.length_map, List.length_map]
          simp
          omega
        have hptp0 : QuantitativeAnalyzer.ptp (QuantitativeAnalyzer.residuals
            (QuantitativeAnalyzer.zsOf cs) (QuantitativeAnalyzer.xsOf cs)) = 0 :=
          ptp_eq_zero_of_all_zero hresne hres
        rw [QuantitativeAnalyzer.estimate_cobb, if_neg hlen, if_neg hspan, hptp0]
        simp
  · intro hlen hspan
    rw [QuantitativeAnalyzer.estimate_cobb, if_neg (by omega), if_neg (not_lt.mpr hspan)]

/-- C6 witness: the estimate evaluated on an empty list and on three
collinear centroids. -/
theorem c6_cobb_spec_witness :
    QuantitativeAnalyzer.estimate_cobb [] = 0
  ∧ QuantitativeAnalyzer.estimate_cobb
      [((0 : ℚ), (0 : ℚ), (0 : ℚ)), (1, 0, 1), (2, 0, 2)] = 0 :=
  ⟨(c6_cobb_spec []).1 (by decide),
   (c6_cobb_spec [((0 : ℚ), (0 : ℚ), (0 : ℚ)), (1, 0, 1), (2, 0, 2)]).2.2.1
      ⟨1, 0, by intro c hc; fin_cases hc <;> norm_num⟩⟩

end Spine
